import Mathlib

/-!
Shallow embedding of the Verilator testbench driver
(`src/hardware/detailed/tb/tb_driver.cpp`).

The driver is a single `main` function: it opens a VCD trace sink, then
loops `while (!contextp->gotFinish())`, each iteration performing two
half-cycles of `timeInc(5); clk = !clk; eval(); dump(time)`, and finally
closes the sink and returns 0.

The hardware model (`Vtb_pim_system`) and the Verilator run context are
opaque external collaborators.  Their only influence on the driver is:
  * the `gotFinish()` predicate, modelled as an oracle
    `finish : Nat → Bool` giving its value when checked after `k`
    completed full iterations (the simulation is deterministic and
    single-threaded, so this value is a function of the iteration count);
  * the possibility that `eval()` fatally aborts the process
    (spec §7: "Model evaluation failure ... propagates as a fatal abort
    of the whole process; not caught or retried"), modelled as an oracle
    `abort : Nat → Bool` indexed by the 0-based count of `eval` calls
    already completed.
-/

namespace TbDriver

/-- Observable actions of the driver, in program order. -/
inductive Event where
  | timeInc (q : Nat)
  | toggleClk
  | evalModel
  | dump (t : Nat)
  | sinkOpen
  | sinkClose
deriving DecidableEq, Repr

/-- Driver-visible state: the run context's virtual time (`contextp->time()`),
the model's clock input (`top->clk`), the sequence of waveform samples
written so far (timestamp paired with the sampled clock value), the number
of times the VCD sink has been opened and closed, and the log of events. -/
structure DriverState where
  time : Nat
  clk : Bool
  trace : List (Nat × Bool)
  openCount : Nat
  closeCount : Nat
  events : List Event
deriving DecidableEq, Repr

/-- Source `contextp->timeInc(q)`: advance virtual time by `q` picoseconds. -/
def timeInc (q : Nat) (s : DriverState) : DriverState :=
  { s with time := s.time + q, events := s.events ++ [Event.timeInc q] }

/-- Source `top->clk = !top->clk`: toggle the clock input on the model. -/
def toggleClk (s : DriverState) : DriverState :=
  { s with clk := !s.clk, events := s.events ++ [Event.toggleClk] }

/-- Source `top->eval()`: settle the opaque model; no driver-visible state
other than the event log changes. -/
def evalModel (s : DriverState) : DriverState :=
  { s with events := s.events ++ [Event.evalModel] }

/-- Source `tfp->dump(contextp->time())`: append one timestamped snapshot
of the model's signal state (here: the clock) to the trace. -/
def dumpTrace (s : DriverState) : DriverState :=
  { s with trace := s.trace ++ [(s.time, s.clk)],
           events := s.events ++ [Event.dump s.time] }

/-- Source `tfp->open("pim_system_tb.vcd")`. -/
def sinkOpenOp (s : DriverState) : DriverState :=
  { s with openCount := s.openCount + 1, events := s.events ++ [Event.sinkOpen] }

/-- Source `tfp->close()`. -/
def sinkCloseOp (s : DriverState) : DriverState :=
  { s with closeCount := s.closeCount + 1, events := s.events ++ [Event.sinkClose] }

/-- The time quantum hard-coded at both `timeInc(5)` call sites. -/
def QUANTUM : Nat := 5

/-- One half-cycle of the loop body:
`timeInc(5); clk = !clk; eval(); dump(time)`. -/
def halfStep (s : DriverState) : DriverState :=
  dumpTrace (evalModel (toggleClk (timeInc QUANTUM s)))

/-- One full iteration of the `while` loop body: two half-cycles. -/
def fullStep (s : DriverState) : DriverState :=
  halfStep (halfStep s)

/-- The state at program start: time 0, trace empty, sink untouched.
`c0` is the initial value of `top->clk`, determined by the opaque
generated model. -/
def initState (c0 : Bool) : DriverState :=
  { time := 0, clk := c0, trace := [], openCount := 0, closeCount := 0,
    events := [] }

/-- The `while (!contextp->gotFinish())` loop, run with at most `fuel`
iterations; `k` counts the full iterations already completed.  Returns
`none` when the loop has not yet terminated after `fuel` iterations, and
`some` of the loop-exit state otherwise. -/
def loopIter (finish : Nat → Bool) : Nat → Nat → DriverState → Option DriverState
  | 0, k, s => if finish k then some s else none
  | fuel + 1, k, s =>
      if finish k then some s else loopIter finish fuel (k + 1) (fullStep s)

/-- The whole of `main` on the normal path (no model abort): open the sink,
run the loop, close the sink, `return 0`.  `none` means the loop did not
terminate within `fuel` iterations. -/
def runMain (finish : Nat → Bool) (c0 : Bool) (fuel : Nat) :
    Option (DriverState × Nat) :=
  match loopIter finish fuel 0 (sinkOpenOp (initState c0)) with
  | none => none
  | some s => some (sinkCloseOp s, 0)

/-- Number of completed `eval()` calls recorded in an event list. -/
def evalCount (es : List Event) : Nat :=
  es.countP (fun e => e == Event.evalModel)

/-- One half-cycle when `eval()` may fatally abort the process: the abort
(if any) happens during `eval`, after time advance and clock toggle but
before the dump is reached.  `Except.error` carries the state at the
moment the process dies. -/
def halfStepA (abort : Nat → Bool) (s : DriverState) :
    Except DriverState DriverState :=
  if abort (evalCount (toggleClk (timeInc QUANTUM s)).events) then
    Except.error (toggleClk (timeInc QUANTUM s))
  else
    Except.ok (dumpTrace (evalModel (toggleClk (timeInc QUANTUM s))))

/-- The loop when `eval()` may abort: an abort ends the whole process at
once (spec §7 — not caught or retried). -/
def loopIterA (finish abort : Nat → Bool) :
    Nat → Nat → DriverState → Option (Except DriverState DriverState)
  | 0, k, s => if finish k then some (Except.ok s) else none
  | fuel + 1, k, s =>
      if finish k then some (Except.ok s)
      else
        match halfStepA abort s with
        | Except.error sab => some (Except.error sab)
        | Except.ok s1 =>
          match halfStepA abort s1 with
          | Except.error sab => some (Except.error sab)
          | Except.ok s2 => loopIterA finish abort fuel (k + 1) s2

/-- The whole of `main` including the abnormal exit path: on a fatal abort during
`eval()` the process dies immediately and `tfp->close()` is never
reached; only the normal path runs `sinkCloseOp`. -/
def runMainA (finish abort : Nat → Bool) (c0 : Bool) (fuel : Nat) :
    Option DriverState :=
  match loopIterA finish abort fuel 0 (sinkOpenOp (initState c0)) with
  | none => none
  | some (Except.ok s) => some (sinkCloseOp s)
  | some (Except.error s) => some s

/-- The event pattern of one half-cycle whose dump lands at time `t`. -/
def halfEvents (t : Nat) : List Event :=
  [Event.timeInc QUANTUM, Event.toggleClk, Event.evalModel, Event.dump t]

/-- The event log produced by `n` half-cycles started at time 0. -/
def loopEvents : Nat → List Event
  | 0 => []
  | n + 1 => loopEvents n ++ halfEvents (QUANTUM * (n + 1))

/-- Projection out of either outcome of an abortable step. -/
def exceptState : Except DriverState DriverState → DriverState
  | Except.ok s => s
  | Except.error s => s

/-! ### Field actions of one half-cycle -/

theorem halfStep_time (s : DriverState) : (halfStep s).time = s.time + QUANTUM := rfl

theorem halfStep_clk (s : DriverState) : (halfStep s).clk = !s.clk := rfl

theorem halfStep_trace (s : DriverState) :
    (halfStep s).trace = s.trace ++ [(s.time + QUANTUM, !s.clk)] := rfl

theorem halfStep_openCount (s : DriverState) :
    (halfStep s).openCount = s.openCount := rfl

theorem halfStep_closeCount (s : DriverState) :
    (halfStep s).closeCount = s.closeCount := rfl

theorem halfStep_events (s : DriverState) :
    (halfStep s).events = s.events ++ halfEvents (s.time + QUANTUM) := by
  simp [halfStep, dumpTrace, evalModel, toggleClk, timeInc, halfEvents]

/-! ### Iterated half-cycles -/

theorem iterate_halfStep_time (n : Nat) (s : DriverState) :
    (halfStep^[n] s).time = s.time + n * QUANTUM := by
  induction n generalizing s with
  | zero => simp
  | succ n ih =>
    rw [Function.iterate_succ_apply, ih, halfStep_time]
    ring

theorem iterate_halfStep_trace_length (n : Nat) (s : DriverState) :
    (halfStep^[n] s).trace.length = s.trace.length + n := by
  induction n generalizing s with
  | zero => rfl
  | succ n ih =>
    rw [Function.iterate_succ_apply, ih]
    rw [halfStep_trace, List.length_append]
    simp
    omega

theorem iterate_halfStep_openCount (n : Nat) (s : DriverState) :
    (halfStep^[n] s).openCount = s.openCount := by
  induction n generalizing s with
  | zero => rfl
  | succ n ih => rw [Function.iterate_succ_apply, ih, halfStep_openCount]

theorem iterate_halfStep_closeCount (n : Nat) (s : DriverState) :
    (halfStep^[n] s).closeCount = s.closeCount := by
  induction n generalizing s with
  | zero => rfl
  | succ n ih => rw [Function.iterate_succ_apply, ih, halfStep_closeCount]

theorem iterate_halfStep_events_append (n : Nat) (s : DriverState) :
    ∃ es, (halfStep^[n] s).events = s.events ++ es := by
  induction n with
  | zero => exact ⟨[], by simp⟩
  | succ n ih =>
    obtain ⟨es, he⟩ := ih
    refine ⟨es ++ halfEvents ((halfStep^[n] s).time + QUANTUM), ?_⟩
    rw [Function.iterate_succ_apply', halfStep_events, he, List.append_assoc]

theorem fullStep_iterate (j : Nat) (s : DriverState) :
    fullStep^[j] s = halfStep^[2 * j] s := by
  induction j generalizing s with
  | zero => rfl
  | succ j ih =>
    rw [Function.iterate_succ_apply, ih, show 2 * (j + 1) = 2 * j + 2 from by omega,
      Function.iterate_add_apply]
    rfl

/-! ### The termination structure of the while loop -/

theorem loopIter_some (finish : Nat → Bool) (n : Nat) :
    ∀ (k : Nat) (s s' : DriverState), loopIter finish n k s = some s' →
    ∃ j, j ≤ n ∧ finish (k + j) = true ∧ (∀ i < j, finish (k + i) = false) ∧
      s' = fullStep^[j] s := by
  induction n with
  | zero =>
    intro k s s' h
    simp only [loopIter] at h
    by_cases hf : finish k = true
    · refine ⟨0, Nat.le_refl 0, by simpa using hf, by omega, ?_⟩
      simp [hf] at h
      simp [h.symm]
    · simp [hf] at h
  | succ n ih =>
    intro k s s' h
    simp only [loopIter] at h
    by_cases hf : finish k = true
    · refine ⟨0, Nat.zero_le _, by simpa using hf, by omega, ?_⟩
      simp [hf] at h
      simp [h.symm]
    · simp [hf] at h
      obtain ⟨j, hj, hfin, hbefore, hs⟩ := ih (k + 1) (fullStep s) s' h
      refine ⟨j + 1, by omega, ?_, ?_, ?_⟩
      · rw [show k + (j + 1) = k + 1 + j from by omega]; exact hfin
      · intro i hi
        cases i with
        | zero => simpa using hf
        | succ i =>
          rw [show k + (i + 1) = k + 1 + i from by omega]
          exact hbefore i (by omega)
      · rw [hs, Function.iterate_succ_apply]

theorem loopIter_isSome_of_finish (finish : Nat → Bool) (j : Nat) :
    ∀ (k : Nat) (s : DriverState), finish (k + j) = true →
    (loopIter finish j k s).isSome = true := by
  induction j with
  | zero =>
    intro k s h
    simp only [loopIter]
    simp only [Nat.add_zero] at h
    simp [h]
  | succ j ih =>
    intro k s h
    simp only [loopIter]
    by_cases hf : finish k = true
    · simp [hf]
    · simp [hf]
      apply ih
      rw [show k + 1 + j = k + (j + 1) from by omega]
      exact h

theorem loopIterA_counts (finish abort : Nat → Bool) (n : Nat) :
    ∀ (k : Nat) (s : DriverState) (r : Except DriverState DriverState),
    loopIterA finish abort n k s = some r →
    (exceptState r).openCount = s.openCount ∧
    (exceptState r).closeCount = s.closeCount := by
  have hstep : ∀ (s : DriverState),
      (exceptState (halfStepA abort s)).openCount = s.openCount ∧
      (exceptState (halfStepA abort s)).closeCount = s.closeCount := by
    intro s
    unfold halfStepA
    split
    · exact ⟨rfl, rfl⟩
    · exact ⟨rfl, rfl⟩
  induction n with
  | zero =>
    intro k s r h
    simp only [loopIterA] at h
    by_cases hf : finish k = true
    · simp [hf] at h
      simp [h.symm, exceptState]
    · simp [hf] at h
  | succ n ih =>
    intro k s r h
    simp only [loopIterA] at h
    by_cases hf : finish k = true
    · simp [hf] at h
      simp [h.symm, exceptState]
    · simp [hf] at h
      cases h1 : halfStepA abort s with
      | error sab =>
        rw [h1] at h
        simp at h
        have := hstep s
        rw [h1] at this
        simp [exceptState] at this
        simp [h.symm, exceptState, this]
      | ok s1 =>
        rw [h1] at h
        simp at h
        have hc1 := hstep s
        rw [h1] at hc1
        simp [exceptState] at hc1
        cases h2 : halfStepA abort s1 with
        | error sab =>
          rw [h2] at h
          simp at h
          have hc2 := hstep s1
          rw [h2] at hc2
          simp [exceptState] at hc2
          simp [h.symm, exceptState]
          exact ⟨hc2.1.trans hc1.1, hc2.2.trans hc1.2⟩
        | ok s2 =>
          rw [h2] at h
          have hc2 := hstep s1
          rw [h2] at hc2
          simp [exceptState] at hc2
          obtain ⟨ho, hc⟩ := ih (k + 1) s2 r h
          exact ⟨ho.trans (hc2.1.trans hc1.1), hc.trans (hc2.2.trans hc1.2)⟩

/-! ### Claim theorems -/

/-- C1: the simulation loop terminates if and only if the run context's
completion predicate (`gotFinish`, modelled by the oracle `finish`) becomes
true after some finite number of full iterations; if the predicate is
always false, the loop never terminates within any bounded iteration
count. -/
theorem loop_terminates_iff_finish (finish : Nat → Bool) (c0 : Bool) :
    ((∃ n, (runMain finish c0 n).isSome = true) ↔ (∃ k, finish k = true)) ∧
    ((∀ k, finish k = false) → ∀ n, runMain finish c0 n = none) := by
  constructor
  · constructor
    · rintro ⟨n, hn⟩
      unfold runMain at hn
      cases hcase : loopIter finish n 0 (sinkOpenOp (initState c0)) with
      | none => rw [hcase] at hn; simp at hn
      | some s' =>
        obtain ⟨j, _, hfin, _, _⟩ := loopIter_some finish n 0 _ s' hcase
        exact ⟨j, by simpa using hfin⟩
    · rintro ⟨k, hk⟩
      refine ⟨k, ?_⟩
      have hsome := loopIter_isSome_of_finish finish k 0 (sinkOpenOp (initState c0))
        (by simpa using hk)
      unfold runMain
      cases h2 : loopIter finish k 0 (sinkOpenOp (initState c0)) with
      | none => rw [h2] at hsome; simp at hsome
      | some s => simp
  · intro hall n
    unfold runMain
    cases h2 : loopIter finish n 0 (sinkOpenOp (initState c0)) with
    | none => rfl
    | some s' =>
      obtain ⟨j, _, hfin, _, _⟩ := loopIter_some finish n 0 _ s' h2
      rw [hall (0 + j)] at hfin
      exact absurd hfin (by simp)

/-- Witness for C1: with the always-false predicate, a concrete bounded run
of the driver does not terminate. -/
theorem loop_terminates_iff_finish_witness :
    runMain (fun _ => false) false 3 = none :=
  (loop_terminates_iff_finish (fun _ => false) false).2 (fun _ => rfl) 3

/-- C2: with the fixed quantum 5, after `n` half-cycle advancements
VirtualTime is exactly `n * QUANTUM`; each half-cycle strictly increases it
by exactly `QUANTUM`, and no other operation of the loop body (clock
toggle, model evaluation, trace dump) changes it. -/
theorem virtualTime_fixed_quantum (n : Nat) (c0 : Bool) (s : DriverState) :
    (halfStep^[n] (initState c0)).time = n * QUANTUM ∧
    (halfStep s).time = s.time + QUANTUM ∧
    s.time < (halfStep s).time ∧
    (toggleClk s).time = s.time ∧
    (evalModel s).time = s.time ∧
    (dumpTrace s).time = s.time := by
  refine ⟨?_, rfl, ?_, rfl, rfl, rfl⟩
  · have h := iterate_halfStep_time n (initState c0)
    simpa [initState] using h
  · rw [halfStep_time]
    simp [QUANTUM]

/-- C5: every half-cycle performs, in this order: one time advancement,
one clock toggle, one model evaluation, and then one trace dump; the whole
event log of `n` half-cycles is the `n`-fold repetition of this pattern,
so the settle operation is never skipped after an input write and never
runs twice before a sample. -/
theorem halfCycle_event_order (n : Nat) (c0 : Bool) :
    (halfStep^[n] (initState c0)).events = loopEvents n := by
  induction n with
  | zero => rfl
  | succ n ih =>
    rw [Function.iterate_succ_apply', halfStep_events, ih, loopEvents]
    congr 1
    rw [iterate_halfStep_time]
    congr 1
    simp [initState]
    ring

theorem clock_alternates_aux (n : Nat) (c0 : Bool) :
    List.Chain' (fun a b : Nat × Bool => a.2 ≠ b.2)
      ((halfStep^[n] (initState c0)).trace) ∧
    ∀ x ∈ ((halfStep^[n] (initState c0)).trace).getLast?,
      x.2 = (halfStep^[n] (initState c0)).clk := by
  induction n with
  | zero => exact ⟨by simp [initState], by simp [initState]⟩
  | succ n ih =>
    rw [Function.iterate_succ_apply', halfStep_trace, halfStep_clk]
    constructor
    · rw [List.chain'_append]
      refine ⟨ih.1, by simp, ?_⟩
      intro x hx y hy
      simp only [List.head?_cons, Option.mem_def, Option.some.injEq] at hy
      have hx2 := ih.2 x hx
      rw [← hy]
      simp [hx2]
    · intro x hx
      rw [List.getLast?_concat] at hx
      simp only [Option.mem_def, Option.some.injEq] at hx
      rw [← hx]

/-- C3: the clock signal flips exactly once per time advancement: in the
recorded trace, any two consecutive samples carry different boolean clock
values (a square wave with half-period one quantum). -/
theorem clock_alternates (n : Nat) (c0 : Bool) :
    List.Chain' (fun a b : Nat × Bool => a.2 ≠ b.2)
      ((halfStep^[n] (initState c0)).trace) :=
  (clock_alternates_aux n c0).1

theorem evalCount_append (es1 es2 : List Event) :
    evalCount (es1 ++ es2) = evalCount es1 + evalCount es2 := by
  simp [evalCount, List.countP_append]

theorem evalCount_halfEvents (t : Nat) : evalCount (halfEvents t) = 1 := rfl

theorem iterate_halfStep_evalCount (n : Nat) (s : DriverState) :
    evalCount (halfStep^[n] s).events = evalCount s.events + n := by
  induction n with
  | zero => rfl
  | succ n ih =>
    rw [Function.iterate_succ_apply', halfStep_events, evalCount_append,
      evalCount_halfEvents, ih]
    omega

theorem trace_sorted_aux (n : Nat) (c0 : Bool) :
    List.Pairwise (fun a b : Nat × Bool => a.1 < b.1)
      ((halfStep^[n] (initState c0)).trace) ∧
    ∀ x ∈ (halfStep^[n] (initState c0)).trace,
      x.1 ≤ (halfStep^[n] (initState c0)).time := by
  induction n with
  | zero => exact ⟨by simp [initState], by simp [initState]⟩
  | succ n ih =>
    rw [Function.iterate_succ_apply', halfStep_trace, halfStep_time]
    constructor
    · rw [List.pairwise_append]
      refine ⟨ih.1, by simp, ?_⟩
      intro x hx y hy
      simp only [List.mem_singleton] at hy
      have := ih.2 x hx
      rw [hy]
      have hq : 0 < QUANTUM := by decide
      omega
    · intro x hx
      rcases List.mem_append.1 hx with h | h
      · exact Nat.le_trans (ih.2 x h) (Nat.le_add_right _ _)
      · simp only [List.mem_singleton] at h
        rw [h]

/-- C4: exactly one waveform sample is appended per model evaluation
(trace length equals the number of eval events), hence exactly two samples
per full loop iteration, and the recorded timestamps are strictly
increasing over the whole run. -/
theorem samples_per_eval_and_increasing (n j : Nat) (c0 : Bool) :
    (halfStep^[n] (initState c0)).trace.length = n ∧
    (halfStep^[n] (initState c0)).trace.length =
      evalCount (halfStep^[n] (initState c0)).events ∧
    (fullStep^[j] (initState c0)).trace.length = 2 * j ∧
    List.Pairwise (fun a b : Nat × Bool => a.1 < b.1)
      ((halfStep^[n] (initState c0)).trace) := by
  have hlen : ∀ m, (halfStep^[m] (initState c0)).trace.length = m := by
    intro m
    rw [iterate_halfStep_trace_length]
    simp [initState]
  refine ⟨hlen n, ?_, ?_, (trace_sorted_aux n c0).1⟩
  · rw [hlen n, iterate_halfStep_evalCount]
    simp [initState, evalCount]
  · rw [fullStep_iterate, hlen (2 * j)]

theorem iterate_halfStep_trace_head (n : Nat) (c0 : Bool) (h : 1 ≤ n) :
    (halfStep^[n] (initState c0)).trace.head? = some (QUANTUM, !c0) := by
  induction n with
  | zero => omega
  | succ n ih =>
    cases n with
    | zero => rfl
    | succ m =>
      rw [Function.iterate_succ_apply', halfStep_trace]
      have hlen : (halfStep^[m + 1] (initState c0)).trace.length = m + 1 := by
        rw [iterate_halfStep_trace_length]
        simp [initState]
      cases htr : (halfStep^[m + 1] (initState c0)).trace with
      | nil => rw [htr] at hlen; simp at hlen
      | cons a l =>
        have := ih (by omega)
        rw [htr] at this
        simp only [List.head?_cons, Option.some.injEq] at this
        simp [this]

theorem sample_times_aux (n : Nat) (c0 : Bool) :
    (∀ x ∈ (halfStep^[n] (initState c0)).trace,
      0 < x.1 ∧ x.1 % QUANTUM = 0) ∧
    (halfStep^[n] (initState c0)).time % QUANTUM = 0 := by
  induction n with
  | zero => exact ⟨by simp [initState], by simp [initState]⟩
  | succ n ih =>
    rw [Function.iterate_succ_apply', halfStep_trace, halfStep_time]
    have hq : QUANTUM = 5 := rfl
    have ht := ih.2
    rw [hq] at ht
    constructor
    · intro x hx
      rcases List.mem_append.1 hx with h | h
      · exact ih.1 x h
      · simp only [List.mem_singleton] at h
        rw [h, hq]
        constructor
        · show 0 < (halfStep^[n] (initState c0)).time + 5
          omega
        · show ((halfStep^[n] (initState c0)).time + 5) % 5 = 0
          omega
    · rw [hq]
      omega

/-- C10: no sample is ever recorded at VirtualTime 0: every recorded
timestamp is a strictly positive multiple of the quantum, and the first
sample of any non-empty run has timestamp exactly one quantum and carries
the toggled initial clock value. -/
theorem no_sample_at_time_zero (n : Nat) (c0 : Bool) :
    (∀ x ∈ (halfStep^[n] (initState c0)).trace,
      0 < x.1 ∧ x.1 % QUANTUM = 0) ∧
    (1 ≤ n → (halfStep^[n] (initState c0)).trace.head? = some (QUANTUM, !c0)) :=
  ⟨(sample_times_aux n c0).1, iterate_halfStep_trace_head n c0⟩

/-- Witness for C10: in the two-half-cycle run from a LOW clock, the
sample `(5, HIGH)` is in the trace, its timestamp is a positive multiple
of the quantum, and it is the first sample. -/
theorem no_sample_at_time_zero_witness :
    (0 < ((5 : Nat), true).1 ∧ ((5 : Nat), true).1 % QUANTUM = 0) ∧
    (halfStep^[2] (initState false)).trace.head? = some (QUANTUM, !false) :=
  ⟨(no_sample_at_time_zero 2 false).1 ((5 : Nat), true) (by decide),
   (no_sample_at_time_zero 2 false).2 (by decide)⟩

/-- C6 (counterexample): the claim that the trace sink is closed on every
exit path, including abnormal ones, is false: in the run where the model
fatally aborts during the very first evaluation, the process dies with
the sink opened once but never closed. -/
theorem traceSink_close_counterexample :
    (runMainA (fun _ => false) (fun _ => true) false 1).map
      DriverState.closeCount = some 0 ∧
    (runMainA (fun _ => false) (fun _ => true) false 1).map
      DriverState.openCount = some 1 := by
  exact ⟨rfl, rfl⟩

/-- C6 (amended): on the normal exit path the trace sink is opened exactly
once, before any other event, and closed exactly once, after the last
sample; but on an abnormal exit (a fatal abort during model evaluation)
the sink is left unclosed. -/
theorem traceSink_close_amended :
    (∀ (finish : Nat → Bool) (c0 : Bool) (fuel : Nat) (s : DriverState)
       (code : Nat), runMain finish c0 fuel = some (s, code) →
       s.openCount = 1 ∧ s.closeCount = 1 ∧
       s.events.head? = some Event.sinkOpen ∧
       s.events.getLast? = some Event.sinkClose) ∧
    (∀ (finish abort : Nat → Bool) (c0 : Bool) (fuel : Nat)
       (s : DriverState),
       loopIterA finish abort fuel 0 (sinkOpenOp (initState c0)) =
         some (Except.error s) →
       runMainA finish abort c0 fuel = some s ∧
       s.openCount = 1 ∧ s.closeCount = 0) := by
  constructor
  · intro finish c0 fuel s code h
    unfold runMain at h
    cases h2 : loopIter finish fuel 0 (sinkOpenOp (initState c0)) with
    | none => rw [h2] at h; simp at h
    | some s' =>
      rw [h2] at h
      simp only [Option.some.injEq, Prod.mk.injEq] at h
      obtain ⟨hs, _⟩ := h
      obtain ⟨j, _, _, _, hs'⟩ := loopIter_some finish fuel 0 _ s' h2
      rw [fullStep_iterate] at hs'
      have hopen : s'.openCount = 1 := by
        rw [hs', iterate_halfStep_openCount]
        rfl
      have hclose : s'.closeCount = 0 := by
        rw [hs', iterate_halfStep_closeCount]
        rfl
      obtain ⟨es, hes⟩ := iterate_halfStep_events_append (2 * j)
        (sinkOpenOp (initState c0))
      rw [← hs' ] at hes
      refine ⟨?_, ?_, ?_, ?_⟩
      · rw [← hs]
        show s'.openCount = 1
        exact hopen
      · rw [← hs]
        show s'.closeCount + 1 = 1
        rw [hclose]
      · rw [← hs]
        show (s'.events ++ [Event.sinkClose]).head? = some Event.sinkOpen
        rw [hes]
        rfl
      · rw [← hs]
        show (s'.events ++ [Event.sinkClose]).getLast? = some Event.sinkClose
        rw [List.getLast?_concat]
  · intro finish abort c0 fuel s h
    have hc := loopIterA_counts finish abort fuel 0 (sinkOpenOp (initState c0))
      (Except.error s) h
    simp only [exceptState] at hc
    refine ⟨?_, hc.1.trans rfl, hc.2.trans rfl⟩
    unfold runMainA
    rw [h]

/-- Witness for C6 (amended): the run whose predicate is true at once
closes the once-opened sink exactly once, with the open event first and
the close event last; and the run whose model aborts during the first
evaluation leaves the sink open. -/
theorem traceSink_close_amended_witness :
    ((sinkCloseOp (sinkOpenOp (initState false))).openCount = 1 ∧
     (sinkCloseOp (sinkOpenOp (initState false))).closeCount = 1 ∧
     (sinkCloseOp (sinkOpenOp (initState false))).events.head? =
       some Event.sinkOpen ∧
     (sinkCloseOp (sinkOpenOp (initState false))).events.getLast? =
       some Event.sinkClose) ∧
    (runMainA (fun _ => false) (fun _ => true) false 1 =
       some (toggleClk (timeInc QUANTUM (sinkOpenOp (initState false)))) ∧
     (toggleClk (timeInc QUANTUM (sinkOpenOp (initState false)))).openCount
       = 1 ∧
     (toggleClk (timeInc QUANTUM (sinkOpenOp (initState false)))).closeCount
       = 0) :=
  ⟨traceSink_close_amended.1 (fun _ => true) false 0 _ 0 rfl,
   traceSink_close_amended.2 (fun _ => false) (fun _ => true) false 1 _ rfl⟩

/-- C7: with quantum 5 and a completion predicate true after exactly 3
full cycles, VirtualTime visits 0,5,10,15,20,25,30 over the 6 half-steps,
exactly 6 samples are recorded, their clock values alternate starting from
the toggled initial value, and the process exits with status 0. -/
theorem scenario_three_cycles (c0 : Bool) :
    (runMain (fun k => decide (3 ≤ k)) c0 3).map (fun p => p.2) = some 0 ∧
    (runMain (fun k => decide (3 ≤ k)) c0 3).map (fun p => p.1.time) =
      some 30 ∧
    (runMain (fun k => decide (3 ≤ k)) c0 3).map (fun p => p.1.trace) =
      some [(5, !c0), (10, c0), (15, !c0), (20, c0), (25, !c0), (30, c0)] ∧
    (runMain (fun k => decide (3 ≤ k)) c0 3).map
      (fun p => p.1.trace.length) = some 6 ∧
    (List.range 7).map (fun i => (halfStep^[i] (initState c0)).time) =
      [0, 5, 10, 15, 20, 25, 30] := by
  cases c0 <;> exact ⟨rfl, rfl, rfl, rfl, rfl⟩

/-- C8: if the completion predicate is already true before the first
iteration, the loop body never runs: time stays 0, the clock keeps its
initial value, no sample is recorded, no evaluation happens, yet the sink
is opened and closed exactly once and the exit status is 0. -/
theorem finish_before_first_iteration (finish : Nat → Bool) (c0 : Bool)
    (fuel : Nat) (h : finish 0 = true) :
    runMain finish c0 fuel = some (sinkCloseOp (sinkOpenOp (initState c0)), 0) ∧
    (sinkCloseOp (sinkOpenOp (initState c0))).time = 0 ∧
    (sinkCloseOp (sinkOpenOp (initState c0))).clk = c0 ∧
    (sinkCloseOp (sinkOpenOp (initState c0))).trace = [] ∧
    evalCount (sinkCloseOp (sinkOpenOp (initState c0))).events = 0 ∧
    (sinkCloseOp (sinkOpenOp (initState c0))).openCount = 1 ∧
    (sinkCloseOp (sinkOpenOp (initState c0))).closeCount = 1 := by
  refine ⟨?_, rfl, rfl, rfl, rfl, rfl, rfl⟩
  cases fuel <;> simp [runMain, loopIter, h]

/-- Witness for C8: the concrete run whose predicate is true immediately. -/
theorem finish_before_first_iteration_witness :
    (fun (_ : Nat) => true) 0 = true ∧
    runMain (fun _ => true) false 2 =
      some (sinkCloseOp (sinkOpenOp (initState false)), 0) :=
  ⟨rfl, (finish_before_first_iteration (fun _ => true) false 2 rfl).1⟩

/-- C9: the completion predicate is checked only at full-cycle boundaries,
so any terminating run has an even number of recorded samples and ends
with VirtualTime a multiple of twice the quantum. -/
theorem terminating_run_even_samples (finish : Nat → Bool) (c0 : Bool)
    (fuel : Nat) (s : DriverState) (code : Nat)
    (h : runMain finish c0 fuel = some (s, code)) :
    s.trace.length % 2 = 0 ∧ s.time % (2 * QUANTUM) = 0 := by
  unfold runMain at h
  cases h2 : loopIter finish fuel 0 (sinkOpenOp (initState c0)) with
  | none => rw [h2] at h; simp at h
  | some s' =>
    rw [h2] at h
    simp only [Option.some.injEq, Prod.mk.injEq] at h
    obtain ⟨hs, _⟩ := h
    obtain ⟨j, _, _, _, hs'⟩ := loopIter_some finish fuel 0 _ s' h2
    rw [fullStep_iterate] at hs'
    have hlen : s'.trace.length = 2 * j := by
      rw [hs', iterate_halfStep_trace_length]
      simp [sinkOpenOp, initState]
    have htime : s'.time = 2 * j * QUANTUM := by
      rw [hs', iterate_halfStep_time]
      simp [sinkOpenOp, initState]
    constructor
    · rw [← hs]
      show s'.trace.length % 2 = 0
      omega
    · rw [← hs]
      show s'.time % (2 * QUANTUM) = 0
      rw [htime, show QUANTUM = 5 from rfl]
      omega

/-- Witness for C9: the one-cycle terminating run has 2 samples and ends
at time 10. -/
theorem terminating_run_even_samples_witness :
    runMain (fun k => decide (1 ≤ k)) false 1 =
      some (sinkCloseOp (fullStep (sinkOpenOp (initState false))), 0) ∧
    (sinkCloseOp (fullStep (sinkOpenOp (initState false)))).trace.length % 2
      = 0 ∧
    (sinkCloseOp (fullStep (sinkOpenOp (initState false)))).time %
      (2 * QUANTUM) = 0 :=
  ⟨rfl, terminating_run_even_samples (fun k => decide (1 ≤ k)) false 1 _ 0 rfl⟩

end TbDriver
